import Mathlib

/-!
Verification of the streaming table parser of `src/main.py`
(`TableExtractor`, a subclass of `html.parser.HTMLParser`).

The parser is embedded shallowly: the three callback methods
`handle_starttag`, `handle_endtag` and `handle_data` become pure functions
on an explicit state record `Extractor`, and feeding an event stream is a
left fold of a `step` function over a list of events.

Text handling mirrors the Python string operations used by the source:
`str.lower()` (ASCII case folding), `str.strip()` (strip the whitespace
characters space, tab, newline, carriage return, vertical tab, form feed
from both ends), `' '.join(...)`, and `re.sub(r"\s+", " ", ...)`
(collapse each maximal run of whitespace characters to a single space).
All strings relevant to the claims are ASCII, so the ASCII whitespace and
case-folding sets model the Python behaviour faithfully.
-/

/-- The whitespace characters recognised by Python's `str.strip()` and
by `\s` in `re.sub(r"\s+", " ", ...)` (ASCII range). -/
def isPyWs (c : Char) : Bool :=
  c = ' ' || c = '\t' || c = '\n' || c = '\r' || c = '\x0b' || c = '\x0c'

/-- ASCII case folding of one character, as `str.lower()` does on ASCII. -/
def lowerChar (c : Char) : Char :=
  if 'A' ≤ c ∧ c ≤ 'Z' then Char.ofNat (c.toNat + 32) else c

/-- `tag.lower()` on an ASCII tag name. -/
def lowerStr (s : String) : String :=
  ⟨s.data.map lowerChar⟩

/-- `s.strip()` on a list of characters: drop leading and trailing
whitespace. -/
def pyStripL (l : List Char) : List Char :=
  ((l.dropWhile isPyWs).reverse.dropWhile isPyWs).reverse

/-- `s.strip()` on a string. -/
def pyStrip (s : String) : String :=
  ⟨pyStripL s.data⟩

/-- Core of `re.sub(r"\s+", " ", s)`: replace every maximal run of
whitespace characters by a single space.  The boolean flag records
whether the previously consumed character was part of a whitespace run. -/
def collapseAux : Bool → List Char → List Char
  | _, [] => []
  | b, c :: rest =>
    if isPyWs c then
      if b then collapseAux true rest
      else ' ' :: collapseAux true rest
    else c :: collapseAux false rest

/-- `re.sub(r"\s+", " ", s)` on a string. -/
def collapseWs (s : String) : String :=
  ⟨collapseAux false s.data⟩

/-- `' '.join(frags)`. -/
def joinStr : List String → String
  | [] => ""
  | [s] => s
  | s :: t :: rest => s ++ " " ++ joinStr (t :: rest)

/-- The cell finalisation of `handle_endtag` (lines 61-62 of the source):
`cell_text = ' '.join(self.current_cell).strip()` followed by
`cell_text = re.sub(r"\s+", " ", cell_text)`. -/
def cellText (frags : List String) : String :=
  collapseWs (pyStrip (joinStr frags))

/-- The mutable state of a `TableExtractor` instance (`__init__`). -/
structure Extractor where
  tables : List (List (List String))
  current_table : List (List String)
  current_row : List String
  current_cell : List String
  in_table : Bool
  in_row : Bool
  in_cell : Bool
  in_header : Bool
  table_count : Nat
  deriving Repr, DecidableEq

/-- A freshly constructed `TableExtractor()`. -/
def initExtractor : Extractor :=
  ⟨[], [], [], [], false, false, false, false, 0⟩

/-- `TableExtractor.handle_starttag`. -/
def handle_starttag (st : Extractor) (tag : String)
    (_attrs : List (String × String)) : Extractor :=
  if lowerStr tag = "table" then
    { st with in_table := true, current_table := [],
              table_count := st.table_count + 1 }
  else if lowerStr tag = "tr" ∧ st.in_table = true then
    { st with in_row := true, current_row := [] }
  else if (lowerStr tag = "td" ∨ lowerStr tag = "th") ∧ st.in_row = true then
    { st with in_cell := true, in_header := lowerStr tag = "th",
              current_cell := [] }
  else st

/-- `TableExtractor.handle_endtag`. -/
def handle_endtag (st : Extractor) (tag : String) : Extractor :=
  if lowerStr tag = "table" ∧ st.in_table = true then
    { st with
      tables := if st.current_table ≠ [] then st.tables ++ [st.current_table]
                else st.tables,
      in_table := false, current_table := [] }
  else if lowerStr tag = "tr" ∧ st.in_row = true then
    { st with
      current_table := if st.current_row ≠ [] then
                         st.current_table ++ [st.current_row]
                       else st.current_table,
      in_row := false, current_row := [] }
  else if (lowerStr tag = "td" ∨ lowerStr tag = "th") ∧ st.in_cell = true then
    { st with
      current_row := st.current_row ++ [cellText st.current_cell],
      in_cell := false, in_header := false, current_cell := [] }
  else st

/-- `TableExtractor.handle_data`. -/
def handle_data (st : Extractor) (data : String) : Extractor :=
  if st.in_cell = true then
    let cleaned := pyStrip data
    if cleaned ≠ "" then { st with current_cell := st.current_cell ++ [cleaned] }
    else st
  else st

/-- One parse event delivered by the tokenizer to the parser. -/
inductive Event where
  | starttag : String → List (String × String) → Event
  | endtag : String → Event
  | text : String → Event
  deriving Repr, DecidableEq

/-- Dispatch of one event to the corresponding callback. -/
def step (st : Extractor) : Event → Extractor
  | Event.starttag t a => handle_starttag st t a
  | Event.endtag t => handle_endtag st t
  | Event.text d => handle_data st d

/-- Feeding a whole event stream, in order. -/
def feed (st : Extractor) (evs : List Event) : Extractor :=
  evs.foldl step st

/-- The event stream of
`<table><tr><th>A</th><th>B</th></tr><tr><td>1</td><td>2</td></tr></table>`. -/
def c6Stream : List Event :=
  [Event.starttag "table" [], Event.starttag "tr" [],
   Event.starttag "th" [], Event.text "A", Event.endtag "th",
   Event.starttag "th" [], Event.text "B", Event.endtag "th",
   Event.endtag "tr",
   Event.starttag "tr" [],
   Event.starttag "td" [], Event.text "1", Event.endtag "td",
   Event.starttag "td" [], Event.text "2", Event.endtag "td",
   Event.endtag "tr",
   Event.endtag "table"]

/-- The event stream of `<table><tr><td></td></tr></table>`. -/
def c9Stream : List Event :=
  [Event.starttag "table" [], Event.starttag "tr" [],
   Event.starttag "td" [], Event.endtag "td",
   Event.endtag "tr", Event.endtag "table"]

/-- An event stream with a nested table open: the outer table has collected
the row ["X"] when the inner `<table>` arrives; the inner table contributes
the row ["Y"], and then a single close "table" arrives. -/
def c1Stream : List Event :=
  [Event.starttag "table" [], Event.starttag "tr" [],
   Event.starttag "td" [], Event.text "X", Event.endtag "td",
   Event.endtag "tr",
   Event.starttag "table" [], Event.starttag "tr" [],
   Event.starttag "td" [], Event.text "Y", Event.endtag "td",
   Event.endtag "tr",
   Event.endtag "table"]

/-- Whether one event is a close "table" that fires the appending branch of
`handle_endtag` in state `st`: a table is open and the current-table buffer
is non-empty at that moment. -/
def closeTableHit (st : Extractor) (e : Event) : Nat :=
  match e with
  | Event.endtag t =>
    if lowerStr t = "table" ∧ st.in_table = true ∧ st.current_table ≠ [] then 1
    else 0
  | _ => 0

/-- The number of close "table" events of a stream that arrive while a
table is open with a non-empty current-table buffer, tracking the evolving
state. -/
def closeTableCount : Extractor → List Event → Nat
  | _, [] => 0
  | st, e :: rest => closeTableHit st e + closeTableCount (step st e) rest

/-- The empty-container invariant: every table in the result set is a
non-empty list of non-empty rows, and every row already collected in the
current-table buffer is non-empty. -/
def tablesInv (st : Extractor) : Prop :=
  (∀ t ∈ st.tables, t ≠ [] ∧ ∀ r ∈ t, r ≠ []) ∧
  (∀ r ∈ st.current_table, r ≠ [])

/-- The first character of a character list, if any, is not whitespace. -/
def headOkL (l : List Char) : Prop :=
  ∀ c ∈ l.head?, isPyWs c = false

/-- The last character of a character list, if any, is not whitespace. -/
def lastOkL (l : List Char) : Prop :=
  ∀ c ∈ l.getLast?, isPyWs c = false

/-- A fully collapsed character list: every whitespace character in it is a
single space that is not followed by another whitespace character. -/
def goodOut : List Char → Prop
  | [] => True
  | c :: rest => (isPyWs c = true → c = ' ' ∧ headOkL rest) ∧ goodOut rest

/-- Cell normalization in the words of the spec (§3 and §4.1): trim each
raw fragment individually, drop the fragments that are empty after
trimming, join the remaining fragments with single spaces, collapse every
internal run of whitespace characters to one space, and trim
leading/trailing whitespace. -/
def specNormalize (ds : List String) : String :=
  pyStrip (collapseWs (joinStr ((ds.map pyStrip).filter (fun s => s ≠ ""))))

/-- C6: the scenario stream `<table><tr><th>A</th><th>B</th></tr><tr><td>1</td><td>2</td></tr></table>` fed to a fresh parser yields exactly one table with exactly the two rows ["A","B"] and ["1","2"]. -/
theorem c6_scenario :
    (feed initExtractor c6Stream).tables = [[["A", "B"], ["1", "2"]]] := by
  decide

/-- C5: the parsing core is total: dispatching any single event in any state, and feeding any event stream from any state, always produces a resulting state (no failure, no stuck configuration is representable). -/
theorem c5_totality :
    ∀ (st : Extractor) (e : Event) (evs : List Event),
      (∃ st', step st e = st') ∧ (∃ st'', feed st evs = st'') :=
  fun st e evs => ⟨⟨step st e, rfl⟩, ⟨feed st evs, rfl⟩⟩

/-- C10: a text-data event arriving while no cell is open leaves the entire parser state unchanged. -/
theorem c10_text_outside_cell_discarded :
    ∀ (st : Extractor) (d : String),
      st.in_cell = false → handle_data st d = st := by
  intro st d h
  simp [handle_data, h]

theorem c10_witness : handle_data initExtractor "stray text" = initExtractor :=
  c10_text_outside_cell_discarded initExtractor "stray text" rfl

theorem lowerStr_table : lowerStr "table" = "table" := by decide

theorem lowerStr_tr : lowerStr "tr" = "tr" := by decide

theorem lowerStr_td : lowerStr "td" = "td" := by decide

theorem lowerStr_th : lowerStr "th" = "th" := by decide

theorem table_ne_tr : ("table" : String) ≠ "tr" := by decide

theorem table_ne_td : ("table" : String) ≠ "td" := by decide

theorem table_ne_th : ("table" : String) ≠ "th" := by decide

theorem tr_ne_table : ("tr" : String) ≠ "table" := by decide

theorem tr_ne_td : ("tr" : String) ≠ "td" := by decide

theorem tr_ne_th : ("tr" : String) ≠ "th" := by decide

theorem td_ne_table : ("td" : String) ≠ "table" := by decide

theorem td_ne_tr : ("td" : String) ≠ "tr" := by decide

theorem th_ne_table : ("th" : String) ≠ "table" := by decide

theorem th_ne_tr : ("th" : String) ≠ "tr" := by decide

/-- C8: an unmatched close event — close "table" with no table open, close "tr" with no row open, close "td" or "th" with no cell open — leaves the entire parser state unchanged. -/
theorem c8_unmatched_close_ignored :
    ∀ st : Extractor,
      (st.in_table = false → handle_endtag st "table" = st) ∧
      (st.in_row = false → handle_endtag st "tr" = st) ∧
      (st.in_cell = false → handle_endtag st "td" = st) ∧
      (st.in_cell = false → handle_endtag st "th" = st) := by
  intro st
  refine ⟨fun h => ?_, fun h => ?_, fun h => ?_, fun h => ?_⟩
  · simp [handle_endtag, h, lowerStr_table, table_ne_tr, table_ne_td,
          table_ne_th]
  · simp [handle_endtag, h, lowerStr_tr, tr_ne_table, tr_ne_td, tr_ne_th]
  · simp [handle_endtag, h, lowerStr_td, td_ne_table, td_ne_tr]
  · simp [handle_endtag, h, lowerStr_th, th_ne_table, th_ne_tr]

theorem c8_witness :
    handle_endtag initExtractor "table" = initExtractor ∧
    handle_endtag initExtractor "tr" = initExtractor ∧
    handle_endtag initExtractor "td" = initExtractor ∧
    handle_endtag initExtractor "th" = initExtractor :=
  ⟨(c8_unmatched_close_ignored initExtractor).1 rfl,
   (c8_unmatched_close_ignored initExtractor).2.1 rfl,
   (c8_unmatched_close_ignored initExtractor).2.2.1 rfl,
   (c8_unmatched_close_ignored initExtractor).2.2.2 rfl⟩

/-- C9: closing an open cell always appends exactly one cell string to the current row — the empty string when no fragment was accumulated — and in particular `<table><tr><td></td></tr></table>` yields the single table [[""]]. -/
theorem c9_empty_cell_not_suppressed :
    (∀ st : Extractor, st.in_cell = true →
        (handle_endtag st "td").current_row
          = st.current_row ++ [cellText st.current_cell]) ∧
    cellText [] = "" ∧
    (feed initExtractor c9Stream).tables = [[[""]]] := by
  refine ⟨fun st h => ?_, by decide, by decide⟩
  simp [handle_endtag, h, lowerStr_td, td_ne_table, td_ne_tr]

theorem c9_witness :
    (handle_endtag ⟨[], [], [], [], false, false, true, false, 0⟩
        "td").current_row = [""] := by
  have h := c9_empty_cell_not_suppressed.1
    ⟨[], [], [], [], false, false, true, false, 0⟩ rfl
  simpa using h

/-- C1 counterexample: on `c1Stream` the row ["X"] collected for the outer table before the inner open is NOT in the output table — the result is [[["Y"]]], not a table containing both rows, so the inner open is not a no-op at the outer level. -/
theorem c1_counterexample :
    (feed initExtractor c1Stream).tables = [[["Y"]]] ∧
    ["X"] ∉ ([["Y"]] : List (List String)) := by
  decide

/-- C1 amended: an open "table" event arriving while a table is already open does not push a new frame, but it is not a no-op either: it resets the current-table buffer — discarding the rows collected for the outer table so far — and increments the table counter, leaving all other fields (including the current row and cell buffers) unchanged; the first close "table" event then terminates collection, emitting the current-table buffer (exactly the rows collected since the most recent open) iff it is non-empty. -/
theorem c1_nested_open_resets_buffer :
    ∀ (st : Extractor) (attrs : List (String × String)),
      st.in_table = true →
      handle_starttag st "table" attrs
        = { st with in_table := true, current_table := [],
                    table_count := st.table_count + 1 } ∧
      (handle_endtag st "table").in_table = false ∧
      (handle_endtag st "table").tables
        = st.tables ++ (if st.current_table = [] then []
                        else [st.current_table]) := by
  intro st attrs h
  refine ⟨?_, ?_, ?_⟩
  · simp [handle_starttag, lowerStr_table]
  · simp [handle_endtag, h, lowerStr_table]
  · by_cases hct : st.current_table = [] <;>
      simp [handle_endtag, h, hct, lowerStr_table]

theorem c1_witness :
    handle_starttag ⟨[], [["X"]], [], [], true, false, false, false, 1⟩
        "table" []
      = ⟨[], [], [], [], true, false, false, false, 2⟩ ∧
    (handle_endtag ⟨[], [["X"]], [], [], true, false, false, false, 1⟩
        "table").tables = [[["X"]]] := by
  have h := c1_nested_open_resets_buffer
    ⟨[], [["X"]], [], [], true, false, false, false, 1⟩ [] rfl
  exact ⟨h.1, by rw [h.2.2]; decide⟩

lemma step_tables_length (st : Extractor) (e : Event) :
    (step st e).tables.length = st.tables.length + closeTableHit st e := by
  cases e with
  | starttag t a =>
    simp only [step, handle_starttag, closeTableHit]
    split_ifs <;> simp
  | endtag t =>
    simp only [step, handle_endtag, closeTableHit]
    split_ifs with h1 h2 h3 <;> simp_all [List.length_append]
  | text d =>
    simp only [step, handle_data, closeTableHit]
    split_ifs <;> simp

lemma feed_tables_length :
    ∀ (evs : List Event) (st : Extractor),
      (feed st evs).tables.length = st.tables.length + closeTableCount st evs := by
  intro evs
  induction evs with
  | nil => intro st; simp [feed, closeTableCount]
  | cons e rest ih =>
    intro st
    have hfeed : feed st (e :: rest) = feed (step st e) rest := by
      simp [feed]
    rw [hfeed, ih (step st e)]
    have := step_tables_length st e
    simp [closeTableCount]
    omega

/-- C2: for every event stream fed to a fresh parser, the number of tables in the final result set equals the number of close "table" events that arrived while a table was open with a non-empty current-table buffer. -/
theorem c2_table_count :
    ∀ evs : List Event,
      (feed initExtractor evs).tables.length
        = closeTableCount initExtractor evs := by
  intro evs
  have h := feed_tables_length evs initExtractor
  simpa [initExtractor] using h

lemma tablesInv_step (st : Extractor) (e : Event) (h : tablesInv st) :
    tablesInv (step st e) := by
  cases e with
  | starttag t a =>
    simp only [step, handle_starttag]
    split_ifs
    · exact ⟨h.1, by simp⟩
    · exact h
    · exact h
    · exact h
  | endtag t =>
    simp only [step, handle_endtag]
    split_ifs with h1 hct h2 hcr h3
    · refine ⟨?_, by simp⟩
      intro tb htb
      rcases List.mem_append.1 htb with hm | hm
      · exact h.1 tb hm
      · rw [List.mem_singleton.1 hm]
        exact ⟨hct, h.2⟩
    · exact ⟨h.1, by simp⟩
    · refine ⟨h.1, ?_⟩
      intro r hr
      rcases List.mem_append.1 hr with hm | hm
      · exact h.2 r hm
      · rw [List.mem_singleton.1 hm]
        exact hcr
    · exact ⟨h.1, h.2⟩
    · exact ⟨h.1, h.2⟩
    · exact h
  | text d =>
    simp only [step, handle_data]
    split_ifs <;> exact h

lemma tablesInv_feed :
    ∀ (evs : List Event) (st : Extractor),
      tablesInv st → tablesInv (feed st evs) := by
  intro evs
  induction evs with
  | nil => intro st h; simpa [feed] using h
  | cons e rest ih =>
    intro st h
    have hfeed : feed st (e :: rest) = feed (step st e) rest := by
      simp [feed]
    rw [hfeed]
    exact ih (step st e) (tablesInv_step st e h)

/-- C4: after every prefix of every event stream fed to a fresh parser, every table in the result set is a non-empty sequence of rows, and every row in the result set and in the current-table buffer is a non-empty sequence of cells. -/
theorem c4_no_empty_containers :
    ∀ evs : List Event, tablesInv (feed initExtractor evs) := by
  intro evs
  refine tablesInv_feed evs initExtractor ⟨?_, ?_⟩ <;> simp [initExtractor]

lemma headOkL_nil : headOkL [] := by
  intro c hc
  simp at hc

lemma headOkL_cons {c : Char} {l : List Char} (h : isPyWs c = false) :
    headOkL (c :: l) := by
  intro x hx
  simp at hx
  subst hx
  exact h

lemma headOkL_dropWhile (l : List Char) : headOkL (l.dropWhile isPyWs) := by
  induction l with
  | nil => exact headOkL_nil
  | cons c rest ih =>
    rw [List.dropWhile_cons]
    by_cases hc : isPyWs c = true
    · rw [if_pos hc]
      exact ih
    · rw [if_neg hc]
      exact headOkL_cons (by simpa using hc)

lemma lastOkL_of_cons {c : Char} {l : List Char} (h : lastOkL (c :: l))
    (hl : l ≠ []) : lastOkL l := by
  intro x hx
  apply h
  obtain ⟨d, t, rfl⟩ := List.exists_cons_of_ne_nil hl
  rw [List.getLast?_cons_cons]
  exact hx

lemma lastOkL_dropWhile (l : List Char) (h : lastOkL l) :
    lastOkL (l.dropWhile isPyWs) := by
  induction l with
  | nil => simpa using h
  | cons c rest ih =>
    rw [List.dropWhile_cons]
    by_cases hc : isPyWs c = true
    · rw [if_pos hc]
      cases rest with
      | nil =>
        intro x hx
        simp at hx
      | cons d r =>
        exact ih (lastOkL_of_cons h (by simp))
    · rw [if_neg hc]
      exact h

lemma dropWhile_eq_self_of_headOkL (l : List Char) (h : headOkL l) :
    l.dropWhile isPyWs = l := by
  cases l with
  | nil => rfl
  | cons c rest =>
    have hc : isPyWs c = false := h c (by simp)
    simp [List.dropWhile_cons, hc]

lemma headOkL_reverse_iff (l : List Char) : headOkL l.reverse ↔ lastOkL l := by
  unfold headOkL lastOkL
  rw [List.head?_reverse]

lemma lastOkL_reverse_iff (l : List Char) : lastOkL l.reverse ↔ headOkL l := by
  unfold headOkL lastOkL
  rw [List.getLast?_reverse]

lemma headOkL_pyStripL (l : List Char) : headOkL (pyStripL l) := by
  unfold pyStripL
  rw [headOkL_reverse_iff]
  apply lastOkL_dropWhile
  rw [lastOkL_reverse_iff]
  exact headOkL_dropWhile l

lemma lastOkL_pyStripL (l : List Char) : lastOkL (pyStripL l) := by
  unfold pyStripL
  rw [lastOkL_reverse_iff]
  exact headOkL_dropWhile _

lemma pyStripL_eq_self (l : List Char) (h1 : headOkL l) (h2 : lastOkL l) :
    pyStripL l = l := by
  unfold pyStripL
  rw [dropWhile_eq_self_of_headOkL l h1,
      dropWhile_eq_self_of_headOkL l.reverse ((headOkL_reverse_iff l).2 h2),
      List.reverse_reverse]

lemma collapseAux_cons (b : Bool) (c : Char) (rest : List Char) :
    collapseAux b (c :: rest)
      = if isPyWs c then
          (if b then collapseAux true rest else ' ' :: collapseAux true rest)
        else c :: collapseAux false rest := rfl

lemma headOkL_collapseAux_true (l : List Char) :
    headOkL (collapseAux true l) := by
  induction l with
  | nil => exact headOkL_nil
  | cons c rest ih =>
    rw [collapseAux_cons]
    by_cases hc : isPyWs c = true
    · rw [if_pos hc, if_pos rfl]
      exact ih
    · rw [if_neg hc]
      exact headOkL_cons (by simpa using hc)

lemma headOkL_collapseAux (b : Bool) (l : List Char) (h : headOkL l) :
    headOkL (collapseAux b l) := by
  cases l with
  | nil => exact headOkL_nil
  | cons c rest =>
    have hc : isPyWs c = false := h c (by simp)
    rw [collapseAux_cons, if_neg (by simp [hc])]
    exact headOkL_cons hc

lemma lastOkL_cons_of_cons {c : Char} {l : List Char} (h : lastOkL l)
    (hl : l ≠ []) : lastOkL (c :: l) := by
  intro x hx
  apply h
  obtain ⟨d, t, rfl⟩ := List.exists_cons_of_ne_nil hl
  rw [List.getLast?_cons_cons] at hx
  exact hx

lemma lastOkL_collapseAux :
    ∀ l : List Char, lastOkL l → ∀ b : Bool,
      lastOkL (collapseAux b l) ∧ (l ≠ [] → collapseAux b l ≠ []) := by
  intro l
  induction l with
  | nil =>
    intro _ b
    exact ⟨fun x hx => by simp [collapseAux] at hx, by simp⟩
  | cons c rest ih =>
    intro h b
    cases rest with
    | nil =>
      have hc : isPyWs c = false := h c (by simp)
      rw [collapseAux_cons, if_neg (by simp [hc])]
      refine ⟨?_, by simp⟩
      intro x hx
      simp [collapseAux] at hx
      subst hx
      exact hc
    | cons d r =>
      have hrest : lastOkL (d :: r) := lastOkL_of_cons h (by simp)
      by_cases hc : isPyWs c = true
      · rw [collapseAux_cons, if_pos hc]
        cases b with
        | true =>
          rw [if_pos rfl]
          exact ⟨(ih hrest true).1, fun _ => (ih hrest true).2 (by simp)⟩
        | false =>
          rw [if_neg (by simp)]
          have hne : collapseAux true (d :: r) ≠ [] := (ih hrest true).2 (by simp)
          exact ⟨lastOkL_cons_of_cons (ih hrest true).1 hne, by simp⟩
      · rw [collapseAux_cons, if_neg hc]
        have hne : collapseAux false (d :: r) ≠ [] := (ih hrest false).2 (by simp)
        exact ⟨lastOkL_cons_of_cons (ih hrest false).1 hne, by simp⟩

lemma goodOut_collapseAux (b : Bool) (l : List Char) :
    goodOut (collapseAux b l) := by
  induction l generalizing b with
  | nil => simp [collapseAux, goodOut]
  | cons c rest ih =>
    rw [collapseAux_cons]
    by_cases hc : isPyWs c = true
    · rw [if_pos hc]
      cases b with
      | true =>
        rw [if_pos rfl]
        exact ih true
      | false =>
        rw [if_neg (by simp)]
        exact ⟨fun _ => ⟨rfl, headOkL_collapseAux_true rest⟩, ih true⟩
    · rw [if_neg hc]
      exact ⟨fun hws => absurd hws (by simpa using hc), ih false⟩

lemma collapseAux_eq_self :
    ∀ l : List Char, goodOut l → ∀ b : Bool,
      (b = true → headOkL l) → collapseAux b l = l := by
  intro l
  induction l with
  | nil =>
    intro _ b _
    rfl
  | cons c rest ih =>
    intro hg b hb
    rw [collapseAux_cons]
    by_cases hc : isPyWs c = true
    · obtain ⟨hsp, hrest⟩ := hg.1 hc
      cases b with
      | false =>
        rw [if_pos hc, if_neg (by simp)]
        rw [ih hg.2 true (fun _ => hrest), hsp]
      | true =>
        have := hb rfl c (by simp)
        rw [this] at hc
        exact absurd hc (by simp)
    · rw [if_neg hc]
      rw [ih hg.2 false (by simp)]

lemma joinStr_cons_cons (s t : String) (rest : List String) :
    joinStr (s :: t :: rest) = s ++ " " ++ joinStr (t :: rest) := rfl

lemma data_append (a b : String) : (a ++ b).data = a.data ++ b.data :=
  String.data_append a b

lemma joinStr_props :
    ∀ frags : List String,
      (∀ f ∈ frags, f.data ≠ [] ∧ headOkL f.data ∧ lastOkL f.data) →
      headOkL (joinStr frags).data ∧ lastOkL (joinStr frags).data ∧
        (frags ≠ [] → (joinStr frags).data ≠ []) := by
  intro frags
  induction frags with
  | nil =>
    intro _
    exact ⟨headOkL_nil, fun x hx => by simp [joinStr] at hx, by simp⟩
  | cons s rest ih =>
    intro h
    have hs := h s (by simp)
    cases rest with
    | nil =>
      exact ⟨hs.2.1, hs.2.2, fun _ => hs.1⟩
    | cons t r =>
      have hrest := ih (fun f hf => h f (by simp [hf]))
      have hrne : (joinStr (t :: r)).data ≠ [] := hrest.2.2 (by simp)
      have hdata : (joinStr (s :: t :: r)).data
          = s.data ++ (' ' :: (joinStr (t :: r)).data) := by
        rw [joinStr_cons_cons, data_append, data_append, List.append_assoc]
        rfl
      refine ⟨?_, ?_, fun _ => ?_⟩
      · rw [hdata]
        obtain ⟨a, as, has⟩ := List.exists_cons_of_ne_nil hs.1
        rw [has]
        exact headOkL_cons (hs.2.1 a (by rw [has]; simp))
      · rw [hdata]
        intro x hx
        rw [List.getLast?_append_of_ne_nil _ (by simp)] at hx
        obtain ⟨a, as, has⟩ := List.exists_cons_of_ne_nil hrne
        rw [has, List.getLast?_cons_cons] at hx
        apply hrest.2.1
        rw [has]
        exact hx
      · rw [hdata]
        obtain ⟨a, as, has⟩ := List.exists_cons_of_ne_nil hs.1
        rw [has]
        simp

lemma filtered_frag_props (ds : List String) :
    ∀ f ∈ (ds.map pyStrip).filter (fun s => s ≠ ""),
      f.data ≠ [] ∧ headOkL f.data ∧ lastOkL f.data := by
  intro f hf
  have hmem := List.mem_filter.1 hf
  obtain ⟨d, _, rfl⟩ := List.mem_map.1 hmem.1
  refine ⟨?_, headOkL_pyStripL _, lastOkL_pyStripL _⟩
  intro hnil
  have : pyStrip d = "" := String.ext (by rw [hnil])
  have hne := hmem.2
  simp [this] at hne

lemma cellText_eq_specNormalize (ds : List String) :
    cellText ((ds.map pyStrip).filter (fun s => s ≠ "")) = specNormalize ds := by
  obtain ⟨hh, hl, _⟩ :=
    joinStr_props ((ds.map pyStrip).filter (fun s => s ≠ ""))
      (filtered_frag_props ds)
  have e1 : pyStrip (joinStr ((ds.map pyStrip).filter (fun s => s ≠ "")))
      = joinStr ((ds.map pyStrip).filter (fun s => s ≠ "")) := by
    show (⟨pyStripL (joinStr ((ds.map pyStrip).filter (fun s => s ≠ ""))).data⟩
        : String) = _
    rw [pyStripL_eq_self _ hh hl]
  have e2 : pyStrip (collapseWs (joinStr ((ds.map pyStrip).filter
        (fun s => s ≠ ""))))
      = collapseWs (joinStr ((ds.map pyStrip).filter (fun s => s ≠ ""))) := by
    show (⟨pyStripL (collapseAux false
        (joinStr ((ds.map pyStrip).filter (fun s => s ≠ ""))).data)⟩
        : String) = _
    rw [pyStripL_eq_self _ (headOkL_collapseAux false _ hh)
        (lastOkL_collapseAux _ hl false).1]
    rfl
  unfold cellText specNormalize
  rw [e1, e2]

lemma feed_texts :
    ∀ (ds : List String) (st : Extractor), st.in_cell = true →
      feed st (ds.map Event.text)
        = { st with current_cell :=
              st.current_cell ++ (ds.map pyStrip).filter (fun s => s ≠ "") } := by
  intro ds
  induction ds with
  | nil =>
    intro st h
    cases st
    simp [feed]
  | cons d rest ih =>
    intro st h
    have hstep : feed st ((d :: rest).map Event.text)
        = feed (handle_data st d) (rest.map Event.text) := rfl
    rw [hstep]
    by_cases hd : pyStrip d = ""
    · have hdata : handle_data st d = st := by
        simp [handle_data, h, hd]
      rw [hdata, ih st h]
      cases st
      simp [hd]
    · have hdata : handle_data st d
          = { st with current_cell := st.current_cell ++ [pyStrip d] } := by
        simp [handle_data, h, hd]
      rw [hdata, ih _ (by cases st; simpa using h)]
      cases st
      simp [hd]

/-- C3: for every sequence of text events received while a cell is freshly open, closing the cell appends exactly the spec-normalized string — each raw fragment trimmed individually, empty fragments dropped, the rest joined with single spaces, internal whitespace runs collapsed to one space, and the result trimmed — and in particular the single text "  multi\n\tspace   text  " yields the cell string "multi space text". -/
theorem c3_cell_normalization :
    ∀ (st : Extractor) (ds : List String),
      st.in_cell = true → st.current_cell = [] →
      ((handle_endtag (feed st (ds.map Event.text)) "td").current_row
        = st.current_row ++ [specNormalize ds]) ∧
      specNormalize ["  multi\n\tspace   text  "] = "multi space text" := by
  intro st ds hc h0
  refine ⟨?_, by decide⟩
  rw [feed_texts ds st hc]
  cases st
  simp only at hc h0
  subst hc
  simp [handle_endtag, lowerStr_td, td_ne_table, td_ne_tr, h0]
  simpa using cellText_eq_specNormalize ds

theorem c3_witness :
    (handle_endtag (feed ⟨[], [], [], [], false, false, true, false, 0⟩
        (["  multi\n\tspace   text  "].map Event.text)) "td").current_row
      = ["multi space text"] := by
  have h := c3_cell_normalization ⟨[], [], [], [], false, false, true, false, 0⟩
    ["  multi\n\tspace   text  "] rfl rfl
  have h1 := h.1
  rw [h.2] at h1
  simpa using h1

/-- C7: whitespace normalization is idempotent on its own output: re-normalizing (strip, then collapse whitespace runs) any string produced by the parser's cell normalization yields the same string. -/
theorem c7_normalization_idempotent :
    ∀ frags : List String,
      collapseWs (pyStrip (cellText frags)) = cellText frags := by
  intro frags
  have e1 : cellText frags
      = ⟨collapseAux false (pyStripL (joinStr frags).data)⟩ := rfl
  rw [e1]
  have hh : headOkL (collapseAux false (pyStripL (joinStr frags).data)) :=
    headOkL_collapseAux false _ (headOkL_pyStripL _)
  have hlast : lastOkL (collapseAux false (pyStripL (joinStr frags).data)) :=
    (lastOkL_collapseAux _ (lastOkL_pyStripL (joinStr frags).data) false).1
  have e2 : pyStrip (⟨collapseAux false (pyStripL (joinStr frags).data)⟩
        : String)
      = ⟨collapseAux false (pyStripL (joinStr frags).data)⟩ := by
    show (⟨pyStripL (collapseAux false (pyStripL (joinStr frags).data))⟩
        : String) = _
    rw [pyStripL_eq_self _ hh hlast]
  rw [e2]
  show (⟨collapseAux false (collapseAux false
      (pyStripL (joinStr frags).data))⟩ : String) = _
  rw [collapseAux_eq_self _ (goodOut_collapseAux false _) false (by simp)]
